import Mathlib

/-!
Verification of the response-normalization core of `activities/tool_activities.py`.

The Python module is embedded shallowly over `List Char`:
* `Jval` models the JSON values handled by Python's `json` module, with numbers
  restricted to integers (no claim exercises floats) and `json.loads`'s
  duplicate-key collapsing not modelled (no claim exercises duplicate keys).
* `dumps` models `json.dumps` with its default separators `", "` and `": "`.
* `jloads` models `json.loads`: a fuel-indexed recursive-descent reader; the
  fuel is the input length plus one, which the round-trip lemmas show suffices.
* `sanitize_json_response`, `parse_json_response`, the per-provider prompt
  functions, `agent_toolPlanner` and `agent_validatePrompt` are translated
  line by line from the source; exceptions become `Option`/`Except` failures.
-/

/-- Whitespace accepted between JSON tokens (space, newline, tab, CR). -/
def isWsChar (c : Char) : Bool := c = ' ' || c = '\n' || c = '\t' || c = '\r'

/-- Decimal digit test on characters. -/
def isDigitChar (c : Char) : Bool := '0' ≤ c && c ≤ '9'

/-- Drop leading whitespace, as the tokenizer does between tokens. -/
def wsDrop (l : List Char) : List Char := l.dropWhile isWsChar

/-- JSON values as produced by `json.loads` on the strings this module handles:
numbers are integers, object members keep their textual order. -/
inductive Jval where
  | jnull
  | jbool (b : Bool)
  | jint (n : Int)
  | jstr (s : List Char)
  | jarr (elems : List Jval)
  | jobj (members : List (List Char × Jval))

/-- JSON escaping of one character, as `json.dumps` emits it for the characters
the claims exercise: quote and backslash get a backslash, the rest is verbatim. -/
def escC (c : Char) : List Char :=
  if c = '"' then ['\\', '"']
  else if c = '\\' then ['\\', '\\']
  else [c]

/-- JSON escaping of a whole string body. -/
def escS : List Char → List Char
  | [] => []
  | c :: t => escC c ++ escS t

/-- The character for the decimal digit `d`. -/
def digitOf (d : Nat) : Char := Char.ofNat (48 + d)

/-- Numeric value of a digit character. -/
def digitVal (c : Char) : Nat := c.toNat - 48

/-- Decimal digit characters of `n`, most significant first; fuel-indexed so the
recursion is structural (any fuel above the digit count gives the digits). -/
def natChars : Nat → Nat → List Char
  | 0, _ => []
  | f + 1, n => if n = 0 then [] else natChars f (n / 10) ++ [digitOf (n % 10)]

/-- Decimal representation of a natural number, as Python prints it. -/
def natRepr (n : Nat) : List Char := if n = 0 then ['0'] else natChars (n + 1) n

/-- Decimal representation of an integer, as Python prints it. -/
def intRepr (i : Int) : List Char :=
  if i < 0 then '-' :: natRepr i.natAbs else natRepr i.toNat

mutual

/-- Serialization of a JSON value exactly as `json.dumps` renders it with its
default separators: `", "` between items, `": "` after keys, no indentation. -/
def dumps : Jval → List Char
  | .jnull => ('n' :: 'u' :: 'l' :: 'l' :: [])
  | .jbool true => ('t' :: 'r' :: 'u' :: 'e' :: [])
  | .jbool false => ('f' :: 'a' :: 'l' :: 's' :: 'e' :: [])
  | .jint n => intRepr n
  | .jstr s => '"' :: escS s ++ ['"']
  | .jarr xs => '[' :: dumpsElems xs ++ [']']
  | .jobj ms => '\x7b' :: dumpsMems ms ++ ['\x7d']

/-- The elements of an array, joined by `", "`. -/
def dumpsElems : List Jval → List Char
  | [] => []
  | x :: t => dumps x ++ dumpsElemsTail t

/-- Continuation of `dumpsElems` after the first element. -/
def dumpsElemsTail : List Jval → List Char
  | [] => []
  | x :: t => ',' :: ' ' :: (dumps x ++ dumpsElemsTail t)

/-- The members of an object, joined by `", "`, each key quoted and followed
by `": "`. -/
def dumpsMems : List (List Char × Jval) → List Char
  | [] => []
  | (k, v) :: t => '"' :: escS k ++ '"' :: ':' :: ' ' :: (dumps v ++ dumpsMemsTail t)

/-- Continuation of `dumpsMems` after the first member. -/
def dumpsMemsTail : List (List Char × Jval) → List Char
  | [] => []
  | (k, v) :: t =>
      ',' :: ' ' :: ('"' :: escS k ++ '"' :: ':' :: ' ' :: (dumps v ++ dumpsMemsTail t))

end

/-- Unescaping of the character after a backslash inside a JSON string. -/
def unescC (c : Char) : Option Char :=
  if c = '"' then some '"'
  else if c = '\\' then some '\\'
  else if c = '/' then some '/'
  else if c = 'n' then some '\n'
  else if c = 't' then some '\t'
  else if c = 'r' then some '\r'
  else if c = 'b' then some (Char.ofNat 8)
  else if c = 'f' then some (Char.ofNat 12)
  else none

/-- Reader for a JSON string body after the opening quote; yields the decoded
characters and the remainder after the closing quote. -/
def strBody : List Char → Option (List Char × List Char)
  | [] => none
  | c :: t =>
    if c = '"' then some ([], t)
    else if c = '\\' then
      match t with
      | [] => none
      | e :: t2 =>
        match unescC e with
        | none => none
        | some u =>
          match strBody t2 with
          | none => none
          | some (s, r) => some (u :: s, r)
    else
      match strBody t with
      | none => none
      | some (s, r) => some (c :: s, r)

/-- Reader for a run of digits, accumulating their value; stops at the first
non-digit. -/
def grabNat : Nat → List Char → Nat × List Char
  | acc, [] => (acc, [])
  | acc, c :: t => if isDigitChar c then grabNat (10 * acc + digitVal c) t else (acc, c :: t)

mutual

/-- Fuel-indexed reader for one JSON value (with surrounding whitespace),
covering the grammar `json.loads` accepts on the inputs the claims exercise
(integer numerals; the escapes of `unescC`). -/
def parseV : Nat → List Char → Option (Jval × List Char)
  | 0, _ => none
  | f + 1, l =>
    match wsDrop l with
    | [] => none
    | c :: r =>
      if c = 'n' then
        match r with
        | 'u' :: 'l' :: 'l' :: r2 => some (.jnull, r2)
        | _ => none
      else if c = 't' then
        match r with
        | 'r' :: 'u' :: 'e' :: r2 => some (.jbool true, r2)
        | _ => none
      else if c = 'f' then
        match r with
        | 'a' :: 'l' :: 's' :: 'e' :: r2 => some (.jbool false, r2)
        | _ => none
      else if c = '"' then
        match strBody r with
        | none => none
        | some (s, r2) => some (.jstr s, r2)
      else if c = '-' then
        match r with
        | [] => none
        | d :: _ =>
          if isDigitChar d then
            match grabNat 0 r with
            | (n, r2) => some (.jint (-(n : Int)), r2)
          else none
      else if isDigitChar c then
        match grabNat 0 (c :: r) with
        | (n, r2) => some (.jint (n : Int), r2)
      else if c = '[' then
        match wsDrop r with
        | ']' :: r2 => some (.jarr [], r2)
        | _ =>
          match parseL f (wsDrop r) with
          | none => none
          | some (xs, r2) => some (.jarr xs, r2)
      else if c = '\x7b' then
        match wsDrop r with
        | '\x7d' :: r2 => some (.jobj [], r2)
        | _ =>
          match parseM f (wsDrop r) with
          | none => none
          | some (ms, r2) => some (.jobj ms, r2)
      else none

/-- Fuel-indexed reader for the elements of a nonempty array, after `[`. -/
def parseL : Nat → List Char → Option (List Jval × List Char)
  | 0, _ => none
  | f + 1, l =>
    match parseV f l with
    | none => none
    | some (v, r) =>
      match wsDrop r with
      | ',' :: r2 =>
        match parseL f r2 with
        | none => none
        | some (vs, r3) => some (v :: vs, r3)
      | ']' :: r2 => some ([v], r2)
      | _ => none

/-- Fuel-indexed reader for the members of a nonempty object, after the brace. -/
def parseM : Nat → List Char → Option (List (List Char × Jval) × List Char)
  | 0, _ => none
  | f + 1, l =>
    match wsDrop l with
    | '"' :: r =>
      match strBody r with
      | none => none
      | some (k, r1) =>
        match wsDrop r1 with
        | ':' :: r2 =>
          match parseV f r2 with
          | none => none
          | some (v, r3) =>
            match wsDrop r3 with
            | ',' :: r4 =>
              match parseM f r4 with
              | none => none
              | some (ms, r5) => some ((k, v) :: ms, r5)
            | '\x7d' :: r4 => some ([(k, v)], r4)
            | _ => none
        | _ => none
    | _ => none

end

/-- Model of `json.loads` on the strings this module handles: read one value,
then require only whitespace to remain. -/
def jloads (l : List Char) : Option Jval :=
  match parseV (l.length + 1) l with
  | none => none
  | some (v, r) => if wsDrop r = [] then some v else none

example : jloads (('\x7b' :: '\x7d' :: [])) = some (.jobj []) := rfl
example : jloads (("\x7b\"a\": 1\x7d").toList) = some (.jobj [(('a' :: []), .jint 1)]) := rfl
example : jloads (("[1, -25, \"x\"]").toList)
    = some (.jarr [.jint 1, .jint (-25), .jstr ('x' :: [])]) := rfl
example : jloads (("nope").toList) = none := rfl
example : dumps (.jobj [(('a' :: []), .jint 1)]) = ("\x7b\"a\": 1\x7d").toList := rfl

/-- A remainder that cannot absorb trailing digits of a numeral: empty or
starting with a non-digit.  Every delimiter the serializer emits qualifies. -/
def noDigitHead : List Char → Bool
  | [] => true
  | c :: _ => !(isDigitChar c)

theorem digitOf_spec : ∀ d < 10, isDigitChar (digitOf d) = true ∧ digitVal (digitOf d) = d := by
  decide

theorem natChars_all_digits :
    ∀ (f n : Nat), n < f → ∀ c ∈ natChars f n, isDigitChar c = true := by
  intro f
  induction f with
  | zero => intro n hn; omega
  | succ f ih =>
    intro n hn c hc
    by_cases h0 : n = 0
    · simp [natChars, h0] at hc
    · rw [natChars, if_neg h0] at hc
      rcases List.mem_append.mp hc with h | h
      · exact ih (n / 10) (by omega) c h
      · rcases List.mem_singleton.mp h with rfl
        exact (digitOf_spec (n % 10) (Nat.mod_lt _ (by omega))).1

theorem natChars_ne_nil (f n : Nat) (h0 : n ≠ 0) (hf : 0 < f) :
    natChars f n ≠ [] := by
  cases f with
  | zero => omega
  | succ f => rw [natChars, if_neg h0]; simp

theorem grabNat_stop (acc : Nat) (l : List Char) (h : noDigitHead l = true) :
    grabNat acc l = (acc, l) := by
  cases l with
  | nil => rfl
  | cons c t =>
    simp only [noDigitHead, Bool.not_eq_true'] at h
    simp [grabNat, h]

theorem grabNat_run (ds : List Char) (hds : ∀ c ∈ ds, isDigitChar c = true) :
    ∀ (acc : Nat) (rest : List Char), noDigitHead rest = true →
      grabNat acc (ds ++ rest) = (ds.foldl (fun a c => 10 * a + digitVal c) acc, rest) := by
  induction ds with
  | nil => intro acc rest hrest; simpa using grabNat_stop acc rest hrest
  | cons c t ih =>
    intro acc rest hrest
    have hc : isDigitChar c = true := hds c (List.mem_cons_self c t)
    simp only [List.cons_append, grabNat, hc, if_pos, List.foldl_cons]
    exact ih (fun x hx => hds x (List.mem_cons_of_mem c hx)) _ rest hrest

theorem natChars_foldl :
    ∀ (f n : Nat), n < f →
      (natChars f n).foldl (fun a c => 10 * a + digitVal c) 0 = n := by
  intro f
  induction f with
  | zero => intro n hn; omega
  | succ f ih =>
    intro n hn
    by_cases h0 : n = 0
    · simp [natChars, h0]
    · rw [natChars, if_neg h0, List.foldl_append, ih (n / 10) (by omega)]
      simp only [List.foldl_cons, List.foldl_nil]
      rw [(digitOf_spec (n % 10) (Nat.mod_lt _ (by omega))).2]
      omega

theorem natRepr_all_digits (n : Nat) : ∀ c ∈ natRepr n, isDigitChar c = true := by
  unfold natRepr
  by_cases h0 : n = 0
  · simp [h0]; decide
  · rw [if_neg h0]; exact natChars_all_digits (n + 1) n (by omega)

theorem natRepr_ne_nil (n : Nat) : natRepr n ≠ [] := by
  unfold natRepr
  by_cases h0 : n = 0
  · simp [h0]
  · rw [if_neg h0]; exact natChars_ne_nil _ _ h0 (by omega)

theorem grabNat_natRepr (n : Nat) (rest : List Char) (hrest : noDigitHead rest = true) :
    grabNat 0 (natRepr n ++ rest) = (n, rest) := by
  rw [grabNat_run (natRepr n) (natRepr_all_digits n) 0 rest hrest]
  unfold natRepr
  by_cases h0 : n = 0
  · simp [h0]; decide
  · rw [if_neg h0, natChars_foldl (n + 1) n (by omega)]

theorem unescC_quote : unescC '"' = some '"' := rfl

theorem unescC_backslash : unescC '\\' = some '\\' := rfl

theorem strBody_quote (t : List Char) : strBody ('"' :: t) = some ([], t) := by
  rw [strBody.eq_def]
  simp

theorem strBody_backslash (e : Char) (t : List Char) :
    strBody ('\\' :: e :: t)
      = (match unescC e with
         | none => none
         | some u =>
           match strBody t with
           | none => none
           | some (s, r) => some (u :: s, r)) := by
  rw [strBody.eq_def]
  simp

theorem strBody_plain (c : Char) (t : List Char) (hq : c ≠ '"') (hb : c ≠ '\\') :
    strBody (c :: t)
      = (match strBody t with
         | none => none
         | some (s, r) => some (c :: s, r)) := by
  rw [strBody.eq_def]
  simp [hq, hb]

theorem wsDrop_cons (c : Char) (l : List Char) (h : isWsChar c = false) :
    wsDrop (c :: l) = c :: l := by
  simp [wsDrop, List.dropWhile_cons, h]

theorem digit_head_facts (c : Char) (h : isDigitChar c = true) :
    isWsChar c = false ∧ c ≠ ']' ∧ c ≠ '\x7d' ∧ c ≠ 'n' ∧ c ≠ 't' ∧ c ≠ 'f' ∧
      c ≠ '"' ∧ c ≠ '-' ∧ c ≠ '[' ∧ c ≠ '\x7b' := by
  refine ⟨?_, ?_, ?_, ?_, ?_, ?_, ?_, ?_, ?_, ?_⟩
  · cases hws : isWsChar c with
    | false => rfl
    | true =>
      exfalso
      simp only [isWsChar, Bool.or_eq_true, decide_eq_true_eq] at hws
      rcases hws with ((rfl | rfl) | rfl) | rfl <;> exact absurd h (by decide)
  all_goals intro hcv; subst hcv; exact absurd h (by decide)

theorem strBody_escS (s : List Char) :
    ∀ rest : List Char, strBody (escS s ++ '"' :: rest) = some (s, rest) := by
  induction s with
  | nil => intro rest; simpa [escS] using strBody_quote rest
  | cons c t ih =>
    intro rest
    by_cases hq : c = '"'
    · subst hq
      simp only [escS, escC, if_pos, List.cons_append, List.append_assoc]
      rw [strBody_backslash]
      simp [unescC_quote, ih rest]
    · by_cases hb : c = '\\'
      · subst hb
        simp only [escS, escC, if_neg (by decide : ¬('\\' = '"')), if_pos,
          List.cons_append, List.append_assoc]
        rw [strBody_backslash]
        simp [unescC_backslash, ih rest]
      · simp only [escS, escC, if_neg hq, if_neg hb, List.cons_append, List.singleton_append]
        rw [strBody_plain c _ hq hb]
        simp [ih rest]

theorem intRepr_shape (i : Int) :
    (i < 0 ∧ intRepr i = '-' :: natRepr i.natAbs) ∨
      (0 ≤ i ∧ ∃ c t, intRepr i = c :: t ∧ isDigitChar c = true) := by
  by_cases hi : i < 0
  · exact Or.inl ⟨hi, by rw [intRepr, if_pos hi]⟩
  · refine Or.inr ⟨by omega, ?_⟩
    cases hn : natRepr i.toNat with
    | nil => exact absurd hn (natRepr_ne_nil _)
    | cons c t =>
      refine ⟨c, t, ?_, ?_⟩
      · rw [intRepr, if_neg hi, hn]
      · exact natRepr_all_digits _ c (hn ▸ List.mem_cons_self c t)

theorem dumps_head (v : Jval) :
    ∃ c t, dumps v = c :: t ∧ isWsChar c = false ∧ c ≠ ']' ∧ c ≠ '\x7d' := by
  cases v with
  | jnull => refine ⟨'n', _, rfl, ?_, ?_, ?_⟩ <;> decide
  | jbool b =>
    cases b with
    | true => refine ⟨'t', _, rfl, ?_, ?_, ?_⟩ <;> decide
    | false => refine ⟨'f', _, rfl, ?_, ?_, ?_⟩ <;> decide
  | jstr s => refine ⟨'"', _, rfl, ?_, ?_, ?_⟩ <;> decide
  | jarr xs => refine ⟨'[', _, rfl, ?_, ?_, ?_⟩ <;> decide
  | jobj ms => refine ⟨'\x7b', _, rfl, ?_, ?_, ?_⟩ <;> decide
  | jint i =>
    rcases intRepr_shape i with ⟨_, hrep⟩ | ⟨_, c, t, hrep, hc⟩
    · refine ⟨'-', _, by rw [dumps, hrep], ?_, ?_, ?_⟩ <;> decide
    · obtain ⟨hws, hbr, hbc, _⟩ := digit_head_facts c hc
      exact ⟨c, t, by rw [dumps, hrep], hws, hbr, hbc⟩

theorem wsDrop_dumps (v : Jval) (x : List Char) :
    wsDrop (dumps v ++ x) = dumps v ++ x := by
  obtain ⟨c, t, hd, hws, _, _⟩ := dumps_head v
  rw [hd, List.cons_append, wsDrop_cons _ _ hws]

theorem wsDrop_space (l : List Char) : wsDrop (' ' :: l) = wsDrop l := by
  simp [wsDrop, List.dropWhile_cons, isWsChar]

theorem parseV_null (f : Nat) (r : List Char) :
    parseV (f + 1) ('n' :: 'u' :: 'l' :: 'l' :: r) = some (.jnull, r) := rfl

theorem parseV_true (f : Nat) (r : List Char) :
    parseV (f + 1) ('t' :: 'r' :: 'u' :: 'e' :: r) = some (.jbool true, r) := rfl

theorem parseV_false (f : Nat) (r : List Char) :
    parseV (f + 1) ('f' :: 'a' :: 'l' :: 's' :: 'e' :: r) = some (.jbool false, r) := rfl

theorem parseV_strB (f : Nat) (r : List Char) :
    parseV (f + 1) ('"' :: r)
      = (match strBody r with
         | none => none
         | some (s, r2) => some (.jstr s, r2)) := rfl

theorem parseV_dashB (f : Nat) (r : List Char) :
    parseV (f + 1) ('-' :: r)
      = (match r with
         | [] => none
         | d :: _ =>
           if isDigitChar d then
             match grabNat 0 r with
             | (n, r2) => some (.jint (-(n : Int)), r2)
           else none) := rfl

theorem parseV_arrB (f : Nat) (r : List Char) :
    parseV (f + 1) ('[' :: r)
      = (match wsDrop r with
         | ']' :: r2 => some (.jarr [], r2)
         | _ =>
           match parseL f (wsDrop r) with
           | none => none
           | some (xs, r2) => some (.jarr xs, r2)) := rfl

theorem parseV_objB (f : Nat) (r : List Char) :
    parseV (f + 1) ('\x7b' :: r)
      = (match wsDrop r with
         | '\x7d' :: r2 => some (.jobj [], r2)
         | _ =>
           match parseM f (wsDrop r) with
           | none => none
           | some (ms, r2) => some (.jobj ms, r2)) := rfl

theorem parseL_succ (f : Nat) (l : List Char) :
    parseL (f + 1) l
      = (match parseV f l with
         | none => none
         | some (v, r) =>
           match wsDrop r with
           | ',' :: r2 =>
             match parseL f r2 with
             | none => none
             | some (vs, r3) => some (v :: vs, r3)
           | ']' :: r2 => some ([v], r2)
           | _ => none) := rfl

theorem parseM_key (f : Nat) (r : List Char) :
    parseM (f + 1) ('"' :: r)
      = (match strBody r with
         | none => none
         | some (k, r1) =>
           match wsDrop r1 with
           | ':' :: r2 =>
             match parseV f r2 with
             | none => none
             | some (v, r3) =>
               match wsDrop r3 with
               | ',' :: r4 =>
                 match parseM f r4 with
                 | none => none
                 | some (ms, r5) => some ((k, v) :: ms, r5)
               | '\x7d' :: r4 => some ([(k, v)], r4)
               | _ => none
           | _ => none) := rfl

theorem parseV_digit (f : Nat) (c : Char) (r : List Char) (hc : isDigitChar c = true) :
    parseV (f + 1) (c :: r)
      = (match grabNat 0 (c :: r) with
         | (n, r2) => some (.jint (n : Int), r2)) := by
  obtain ⟨hws, _, _, hn, ht, hf', hq, hdash, _, _⟩ := digit_head_facts c hc
  rw [parseV.eq_def]
  simp only [wsDrop_cons c r hws]
  simp [hn, ht, hf', hq, hdash, hc]

theorem parseV_jint (f : Nat) (i : Int) (rest : List Char) (hrest : noDigitHead rest = true) :
    parseV (f + 1) (intRepr i ++ rest) = some (.jint i, rest) := by
  rcases intRepr_shape i with ⟨hi, hrep⟩ | ⟨hi, c, t, hrep, hc⟩
  · have hiv : (-((i.natAbs : Nat) : Int)) = i := by omega
    cases hn : natRepr i.natAbs with
    | nil => exact absurd hn (natRepr_ne_nil _)
    | cons c t =>
      have hc : isDigitChar c = true := natRepr_all_digits _ c (hn ▸ List.mem_cons_self c t)
      have hgrab : grabNat 0 (c :: (t ++ rest)) = (i.natAbs, rest) := by
        have h0 := grabNat_natRepr i.natAbs rest hrest
        rwa [hn, List.cons_append] at h0
      rw [hrep, hn, List.cons_append, List.cons_append, parseV_dashB]
      simp [hc, hgrab, hiv, abs_of_neg hi]
  · have hiv : ((i.toNat : Nat) : Int) = i := by omega
    have hgrab : grabNat 0 (c :: (t ++ rest)) = (i.toNat, rest) := by
      have h0 : grabNat 0 (intRepr i ++ rest) = (i.toNat, rest) := by
        rw [intRepr, if_neg (by omega)]
        exact grabNat_natRepr _ rest hrest
      rwa [hrep, List.cons_append] at h0
    rw [hrep, List.cons_append, parseV_digit f c _ hc]
    simp [hgrab, hiv]

theorem parseV_succ (f : Nat) (l : List Char) :
    parseV (f + 1) l
      = (match wsDrop l with
         | [] => none
         | c :: r =>
           if c = 'n' then
             match r with
             | 'u' :: 'l' :: 'l' :: r2 => some (.jnull, r2)
             | _ => none
           else if c = 't' then
             match r with
             | 'r' :: 'u' :: 'e' :: r2 => some (.jbool true, r2)
             | _ => none
           else if c = 'f' then
             match r with
             | 'a' :: 'l' :: 's' :: 'e' :: r2 => some (.jbool false, r2)
             | _ => none
           else if c = '"' then
             match strBody r with
             | none => none
             | some (s, r2) => some (.jstr s, r2)
           else if c = '-' then
             match r with
             | [] => none
             | d :: _ =>
               if isDigitChar d then
                 match grabNat 0 r with
                 | (n, r2) => some (.jint (-(n : Int)), r2)
               else none
           else if isDigitChar c then
             match grabNat 0 (c :: r) with
             | (n, r2) => some (.jint (n : Int), r2)
           else if c = '[' then
             match wsDrop r with
             | ']' :: r2 => some (.jarr [], r2)
             | _ =>
               match parseL f (wsDrop r) with
               | none => none
               | some (xs, r2) => some (.jarr xs, r2)
           else if c = '\x7b' then
             match wsDrop r with
             | '\x7d' :: r2 => some (.jobj [], r2)
             | _ =>
               match parseM f (wsDrop r) with
               | none => none
               | some (ms, r2) => some (.jobj ms, r2)
           else none) := rfl

theorem parseM_succ (f : Nat) (l : List Char) :
    parseM (f + 1) l
      = (match wsDrop l with
         | '"' :: r =>
           match strBody r with
           | none => none
           | some (k, r1) =>
             match wsDrop r1 with
             | ':' :: r2 =>
               match parseV f r2 with
               | none => none
               | some (v, r3) =>
                 match wsDrop r3 with
                 | ',' :: r4 =>
                   match parseM f r4 with
                   | none => none
                   | some (ms, r5) => some ((k, v) :: ms, r5)
                 | '\x7d' :: r4 => some ([(k, v)], r4)
                 | _ => none
             | _ => none
         | _ => none) := rfl

theorem parseV_space (f : Nat) (l : List Char) : parseV f (' ' :: l) = parseV f l := by
  cases f with
  | zero => rfl
  | succ f => rw [parseV_succ, parseV_succ, wsDrop_space]

theorem parseL_space (f : Nat) (l : List Char) : parseL f (' ' :: l) = parseL f l := by
  cases f with
  | zero => rfl
  | succ f => rw [parseL_succ, parseL_succ, parseV_space]

theorem parseM_space (f : Nat) (l : List Char) : parseM f (' ' :: l) = parseM f l := by
  cases f with
  | zero => rfl
  | succ f => rw [parseM_succ, parseM_succ, wsDrop_space]

mutual

theorem rt_v : ∀ (v : Jval) (f : Nat) (rest : List Char),
    (dumps v).length < f → noDigitHead rest = true →
    parseV f (dumps v ++ rest) = some (v, rest)
  | .jnull, f, rest, hf, _ => by
    cases f with
    | zero => exact absurd hf (Nat.not_lt_zero _)
    | succ f =>
      have harg : dumps .jnull ++ rest = 'n' :: 'u' :: 'l' :: 'l' :: rest := by simp [dumps]
      rw [harg, parseV_null]
  | .jbool true, f, rest, hf, _ => by
    cases f with
    | zero => exact absurd hf (Nat.not_lt_zero _)
    | succ f =>
      have harg : dumps (.jbool true) ++ rest = 't' :: 'r' :: 'u' :: 'e' :: rest := by
        simp [dumps]
      rw [harg, parseV_true]
  | .jbool false, f, rest, hf, _ => by
    cases f with
    | zero => exact absurd hf (Nat.not_lt_zero _)
    | succ f =>
      have harg : dumps (.jbool false) ++ rest = 'f' :: 'a' :: 'l' :: 's' :: 'e' :: rest := by
        simp [dumps]
      rw [harg, parseV_false]
  | .jint i, f, rest, hf, hrest => by
    cases f with
    | zero => exact absurd hf (Nat.not_lt_zero _)
    | succ f =>
      have harg : dumps (.jint i) ++ rest = intRepr i ++ rest := by simp [dumps]
      rw [harg, parseV_jint f i rest hrest]
  | .jstr s, f, rest, hf, _ => by
    cases f with
    | zero => exact absurd hf (Nat.not_lt_zero _)
    | succ f =>
      have harg : dumps (.jstr s) ++ rest = '"' :: (escS s ++ '"' :: rest) := by
        simp [dumps]
      rw [harg, parseV_strB, strBody_escS]
  | .jarr [], f, rest, hf, _ => by
    cases f with
    | zero => exact absurd hf (Nat.not_lt_zero _)
    | succ f =>
      have harg : dumps (.jarr []) ++ rest = '[' :: ']' :: rest := by
        simp [dumps, dumpsElems]
      rw [harg, parseV_arrB, wsDrop_cons ']' rest (by decide)]
      rfl
  | .jarr (x :: xs), f, rest, hf, _ => by
    cases f with
    | zero => exact absurd hf (Nat.not_lt_zero _)
    | succ f =>
      obtain ⟨c, ct, hx, hws, hbr, hbc⟩ := dumps_head x
      have harg : dumps (.jarr (x :: xs)) ++ rest
          = '[' :: (dumpsElems (x :: xs) ++ ']' :: rest) := by
        simp [dumps]
      have hcons : dumpsElems (x :: xs) ++ ']' :: rest
          = c :: (ct ++ (dumpsElemsTail xs ++ ']' :: rest)) := by
        simp [dumpsElems, hx]
      have hscrut : wsDrop (dumpsElems (x :: xs) ++ ']' :: rest)
          = dumpsElems (x :: xs) ++ ']' :: rest := by
        rw [hcons]; exact wsDrop_cons _ _ hws
      have hlen : (dumpsElems (x :: xs)).length + 1 < f := by
        rw [dumps.eq_def] at hf; simp at hf; omega
      rw [harg, parseV_arrB, hscrut]
      split
      · rename_i r2 heq
        rw [hcons] at heq
        exact absurd (List.head_eq_of_cons_eq heq) hbr
      · rw [rt_l x xs f rest hlen]
  | .jobj [], f, rest, hf, _ => by
    cases f with
    | zero => exact absurd hf (Nat.not_lt_zero _)
    | succ f =>
      have harg : dumps (.jobj []) ++ rest = '\x7b' :: '\x7d' :: rest := by
        simp [dumps, dumpsMems]
      rw [harg, parseV_objB, wsDrop_cons '\x7d' rest (by decide)]
      rfl
  | .jobj ((k, v) :: ms), f, rest, hf, _ => by
    cases f with
    | zero => exact absurd hf (Nat.not_lt_zero _)
    | succ f =>
      have harg : dumps (.jobj ((k, v) :: ms)) ++ rest
          = '\x7b' :: (dumpsMems ((k, v) :: ms) ++ '\x7d' :: rest) := by
        simp [dumps]
      have hcons : dumpsMems ((k, v) :: ms) ++ '\x7d' :: rest
          = '"' :: (escS k ++ '"' :: ':' :: ' ' :: (dumps v ++ dumpsMemsTail ms) ++ '\x7d' :: rest) := by
        simp [dumpsMems]
      have hscrut : wsDrop (dumpsMems ((k, v) :: ms) ++ '\x7d' :: rest)
          = dumpsMems ((k, v) :: ms) ++ '\x7d' :: rest := by
        rw [hcons]; exact wsDrop_cons _ _ (by decide)
      have hlen : (dumpsMems ((k, v) :: ms)).length + 1 < f := by
        rw [dumps.eq_def] at hf; simp at hf; omega
      rw [harg, parseV_objB, hscrut]
      split
      · rename_i r2 heq
        rw [hcons] at heq
        exact absurd (List.head_eq_of_cons_eq heq) (by decide)
      · rw [rt_m k v ms f rest hlen]
termination_by v _ _ _ _ => sizeOf v

theorem rt_l : ∀ (x : Jval) (xs : List Jval) (f : Nat) (rest : List Char),
    (dumpsElems (x :: xs)).length + 1 < f →
    parseL f (dumpsElems (x :: xs) ++ ']' :: rest) = some (x :: xs, rest)
  | x, [], f, rest, hf => by
    cases f with
    | zero => exact absurd hf (Nat.not_lt_zero _)
    | succ f =>
      have harg : dumpsElems (x :: []) ++ ']' :: rest = dumps x ++ ']' :: rest := by
        simp [dumpsElems, dumpsElemsTail]
      have hb : (dumps x).length < f := by
        simp [dumpsElems, dumpsElemsTail] at hf; omega
      rw [harg, parseL_succ, rt_v x f (']' :: rest) hb rfl]
      simp [wsDrop, List.dropWhile_cons, isWsChar]
  | x, y :: ys, f, rest, hf => by
    cases f with
    | zero => exact absurd hf (Nat.not_lt_zero _)
    | succ f =>
      have harg : dumpsElems (x :: y :: ys) ++ ']' :: rest
          = dumps x ++ (',' :: ' ' :: (dumpsElems (y :: ys) ++ ']' :: rest)) := by
        simp [dumpsElems, dumpsElemsTail]
      have hbx : (dumps x).length < f := by
        simp [dumpsElems, dumpsElemsTail] at hf; omega
      have hby : (dumpsElems (y :: ys)).length + 1 < f := by
        simp [dumpsElems, dumpsElemsTail] at hf ⊢; omega
      rw [harg, parseL_succ,
        rt_v x f (',' :: ' ' :: (dumpsElems (y :: ys) ++ ']' :: rest)) hbx rfl]
      simp [wsDrop, List.dropWhile_cons, isWsChar, parseL_space, rt_l y ys f rest hby]
termination_by x xs _ _ _ => sizeOf x + sizeOf xs

theorem rt_m : ∀ (k : List Char) (v : Jval) (ms : List (List Char × Jval)) (f : Nat)
    (rest : List Char),
    (dumpsMems ((k, v) :: ms)).length + 1 < f →
    parseM f (dumpsMems ((k, v) :: ms) ++ '\x7d' :: rest) = some ((k, v) :: ms, rest)
  | k, v, [], f, rest, hf => by
    cases f with
    | zero => exact absurd hf (Nat.not_lt_zero _)
    | succ f =>
      have harg : dumpsMems ((k, v) :: []) ++ '\x7d' :: rest
          = '"' :: (escS k ++ '"' :: (':' :: (' ' :: (dumps v ++ '\x7d' :: rest)))) := by
        simp [dumpsMems, dumpsMemsTail]
      have hb : (dumps v).length < f := by
        simp [dumpsMems, dumpsMemsTail] at hf; omega
      rw [harg, parseM_key, strBody_escS]
      simp [wsDrop, List.dropWhile_cons, isWsChar, parseV_space,
        rt_v v f ('\x7d' :: rest) hb rfl]
  | k, v, (k2, v2) :: ms2, f, rest, hf => by
    cases f with
    | zero => exact absurd hf (Nat.not_lt_zero _)
    | succ f =>
      have harg : dumpsMems ((k, v) :: (k2, v2) :: ms2) ++ '\x7d' :: rest
          = '"' :: (escS k ++ '"' :: (':' :: (' ' :: (dumps v
              ++ ',' :: ' ' :: (dumpsMems ((k2, v2) :: ms2) ++ '\x7d' :: rest))))) := by
        simp [dumpsMems, dumpsMemsTail]
      have hbv : (dumps v).length < f := by
        simp [dumpsMems, dumpsMemsTail] at hf; omega
      have hbm : (dumpsMems ((k2, v2) :: ms2)).length + 1 < f := by
        simp [dumpsMems, dumpsMemsTail] at hf ⊢; omega
      rw [harg, parseM_key, strBody_escS]
      simp [wsDrop, List.dropWhile_cons, isWsChar, parseV_space,
        rt_v v f (',' :: ' ' :: (dumpsMems ((k2, v2) :: ms2) ++ '\x7d' :: rest)) hbv rfl,
        parseM_space, rt_m k2 v2 ms2 f rest hbm]
termination_by _ v ms _ _ _ => sizeOf v + sizeOf ms

end

/-- The round trip for complete documents: reading back a serialized value
recovers it, for every value. -/
theorem jloads_dumps (v : Jval) : jloads (dumps v) = some v := by
  have h := rt_v v ((dumps v).length + 1) [] (by omega) (by decide)
  rw [List.append_nil] at h
  rw [jloads, h]
  rfl

/-- Lowest index at which `pat` occurs as a contiguous run, the semantics of
Python's `str.find`/`in` (and of `str.index` where it does not raise). -/
def subFind (pat : List Char) : List Char → Option Nat
  | [] => if pat.isPrefixOf [] then some 0 else none
  | c :: t => if pat.isPrefixOf (c :: t) then some 0 else (subFind pat t).map (· + 1)

/-- Python's `sub in s` substring test. -/
def containsSub (l pat : List Char) : Bool := (subFind pat l).isSome

/-- Python's `s.index(sub, start)`: lowest occurrence at or after `start`. -/
def subFindFrom (pat l : List Char) (start : Nat) : Option Nat :=
  (subFind pat (l.drop start)).map (· + start)

/-- Python's `s.find(ch)` for a single character. -/
def charIdx (l : List Char) (c : Char) : Option Nat := subFind [c] l

/-- Python's `s.rfind(ch)` for a single character: the highest occurrence. -/
def charIdxLast (l : List Char) (c : Char) : Option Nat :=
  (subFind [c] l.reverse).map (fun k => l.length - 1 - k)

/-- Python's slice `s[a:b]`. -/
def pySlice (l : List Char) (a b : Nat) : List Char := (l.take b).drop a

/-- Python's `str.strip()`: remove leading and trailing whitespace. -/
def pyStrip (l : List Char) : List Char :=
  ((l.dropWhile isWsChar).reverse.dropWhile isWsChar).reverse

/-- The opening fence marker scanned for by the sanitizer. -/
def startMarker : List Char := '\x60' :: '\x60' :: '\x60' :: 'j' :: 's' :: 'o' :: 'n' :: []

/-- The closing fence marker scanned for by the sanitizer. -/
def endMarker : List Char := '\x60' :: '\x60' :: '\x60' :: []

/-- Translation of `sanitize_json_response` (tool_activities.py:247-293).  The
nested option distinguishes the source's flow: the outer `none` is the
`str.index` `ValueError` propagated by the bare `raise` (no `"```"` at or after
the fence opening); an inner `none` is `json_str` remaining `None`/falsy, and
the final guard re-raises if `json.loads` rejects the candidate.  Every failure
path raises, so the caller observes `Option`. -/
def sanitize_json_response (raw : List Char) : Option (List Char) :=
  let step : Option (Option (List Char)) :=
    if containsSub raw startMarker && containsSub raw endMarker then
      match subFind startMarker raw with
      | none => some none
      | some i =>
        match subFindFrom endMarker raw (i + startMarker.length) with
        | none => none
        | some j => some (some (pyStrip (pySlice raw (i + startMarker.length) j)))
    else
      match charIdx raw '\x7b', charIdxLast raw '\x7d' with
      | some a, some b =>
        if a < b then some (some (pyStrip (pySlice raw a (b + 1)))) else some none
      | _, _ => some none
  match step with
  | none => none
  | some none => none
  | some (some js) => if js ≠ [] ∧ (jloads js).isSome then some js else none

/-- Translation of `parse_json_response` (tool_activities.py:105-114): parse or
propagate the decode error. -/
def parse_json_response (l : List Char) : Option Jval := jloads l

example : sanitize_json_response (("Sure: \x7b\"a\": 1\x7d ok").toList)
    = some (("\x7b\"a\": 1\x7d").toList) := rfl
example : sanitize_json_response (("no json here").toList) = none := rfl
example : sanitize_json_response (("\x60\x60\x60json\n\x7b\"a\": 1\x7d\n\x60\x60\x60").toList)
    = some (("\x7b\"a\": 1\x7d").toList) := rfl
example : sanitize_json_response (("\x60\x60\x60json \x7b\"a\": 1\x7d").toList) = none := rfl

theorem subFind_cons_shift (pat : List Char) (c d : Char) (pt t : List Char)
    (hpat : pat = c :: pt) (hne : d ≠ c) :
    subFind pat (d :: t) = (subFind pat t).map (· + 1) := by
  subst hpat
  rw [subFind, if_neg]
  intro hpre
  rw [show ((c :: pt).isPrefixOf (d :: t) = false) from by simp [List.isPrefixOf, hne.symm]]
    at hpre
  exact Bool.false_ne_true hpre

theorem subFind_shift (pat : List Char) (c : Char) (pre : List Char)
    (hpat : ∃ pt, pat = c :: pt) (hpre : c ∉ pre) :
    ∀ rest : List Char, subFind pat (pre ++ rest) = (subFind pat rest).map (· + pre.length) := by
  obtain ⟨pt, hpt⟩ := hpat
  induction pre with
  | nil =>
    intro rest
    cases h : subFind pat rest <;> simp [h]
  | cons d pre ih =>
    intro rest
    have hd : d ≠ c := fun h => hpre (h ▸ List.mem_cons_self d pre)
    have hnotin : c ∉ pre := fun h => hpre (List.mem_cons_of_mem d h)
    rw [List.cons_append, subFind_cons_shift pat c d pt _ hpt hd, ih hnotin rest]
    cases h : subFind pat rest <;> simp [h, Nat.add_assoc]

theorem subFind_here (pat r : List Char) : subFind pat (pat ++ r) = some 0 := by
  have hpre : pat.isPrefixOf (pat ++ r) = true := by
    simp [ List.isPrefixOf_iff_prefix]
  cases hE : pat ++ r with
  | nil =>
    rw [hE] at hpre
    rw [subFind, if_pos hpre]
  | cons c t =>
    rw [hE] at hpre
    rw [subFind, if_pos hpre]

theorem dumps_ne_nil (v : Jval) : dumps v ≠ [] := by
  obtain ⟨c, t, hd, _⟩ := dumps_head v
  rw [hd]
  exact List.cons_ne_nil c t

theorem pySlice_mid (x y z : List Char) :
    pySlice (x ++ (y ++ z)) x.length (x.length + y.length) = y := by
  rw [pySlice, List.take_append, List.take_left, List.drop_left]

theorem pySlice_within (l : List Char) (a b : Nat) : pySlice l a b <:+: l :=
  ((List.drop_suffix a (l.take b)).isInfix).trans ((List.take_prefix b l).isInfix)

theorem pyStrip_within (l : List Char) : pyStrip l <:+: l := by
  have h1 : l.dropWhile isWsChar <:+ l := List.dropWhile_suffix isWsChar
  obtain ⟨t, ht⟩ := List.dropWhile_suffix (l := (l.dropWhile isWsChar).reverse) isWsChar
  have hpre : pyStrip l <+: l.dropWhile isWsChar := by
    refine ⟨t.reverse, ?_⟩
    have hr := congrArg List.reverse ht
    simpa [pyStrip] using hr
  exact hpre.isInfix.trans h1.isInfix

theorem pyStrip_eq_self (l : List Char) (c d : Char)
    (hh : l.head? = some c) (hcw : isWsChar c = false)
    (hl : l.getLast? = some d) (hdw : isWsChar d = false) :
    pyStrip l = l := by
  cases l with
  | nil => cases hh
  | cons c0 t =>
    have hc0 : c0 = c := by
      rw [List.head?_cons] at hh
      exact Option.some.inj hh
    have hA : (c0 :: t).dropWhile isWsChar = c0 :: t := by
      rw [List.dropWhile_cons, if_neg]
      rw [hc0, hcw]
      exact Bool.false_ne_true
    rw [pyStrip, hA]
    have hrev : (c0 :: t).reverse.head? = some d := by
      rw [List.head?_reverse]
      exact hl
    cases hR : (c0 :: t).reverse with
    | nil => rw [hR] at hrev; cases hrev
    | cons e t2 =>
      have he : e = d := by
        rw [hR, List.head?_cons] at hrev
        exact Option.some.inj hrev
      have hB : (e :: t2).dropWhile isWsChar = e :: t2 := by
        rw [List.dropWhile_cons, if_neg]
        rw [he, hdw]
        exact Bool.false_ne_true
      rw [hB]
      rw [← hR]
      exact List.reverse_reverse _

theorem charIdx_split (pre rest : List Char) (c : Char) (hpre : c ∉ pre) :
    charIdx (pre ++ c :: rest) c = some pre.length := by
  rw [charIdx, show (c :: rest) = [c] ++ rest from rfl,
    subFind_shift [c] c pre ⟨[], rfl⟩ hpre, subFind_here]
  simp

theorem charIdxLast_split (pre inner post : List Char) (c : Char) (hpost : c ∉ post) :
    charIdxLast (pre ++ ((inner ++ [c]) ++ post)) c = some (pre.length + inner.length) := by
  rw [charIdxLast]
  have hrev : (pre ++ ((inner ++ [c]) ++ post)).reverse
      = post.reverse ++ ([c] ++ (inner.reverse ++ pre.reverse)) := by
    simp [List.reverse_append]
  rw [hrev, subFind_shift [c] c post.reverse ⟨[], rfl⟩ (by simpa using hpost), subFind_here]
  simp [List.length_append]
  omega

theorem startMarker_head : ∃ pt, startMarker = '\x60' :: pt := ⟨_, rfl⟩

theorem endMarker_head : ∃ pt, endMarker = '\x60' :: pt := ⟨_, rfl⟩

theorem subFind_SM (pre rest : List Char) (hpre : '\x60' ∉ pre) :
    subFind startMarker (pre ++ (startMarker ++ rest)) = some pre.length := by
  rw [subFind_shift startMarker '\x60' pre startMarker_head hpre, subFind_here]
  simp

theorem subFind_EM_under_SM (rest : List Char) :
    subFind endMarker (startMarker ++ rest) = some 0 := by
  rw [show startMarker ++ rest = endMarker ++ ('j' :: 's' :: 'o' :: 'n' :: rest) from rfl,
    subFind_here]

/-- The fence-path candidate: text strictly between the first `"```json"` and
the first `"```"` after it, trimmed; `none` when `str.index` would raise. -/
def fenceCandidate (raw : List Char) : Option (List Char) :=
  match subFind startMarker raw with
  | none => none
  | some i =>
    match subFindFrom endMarker raw (i + startMarker.length) with
    | none => none
    | some j => some (pyStrip (pySlice raw (i + startMarker.length) j))

/-- The fallback candidate: first `\x7b` through last `\x7d` inclusive, trimmed;
`none` when either brace is missing or not in order. -/
def braceCandidate (raw : List Char) : Option (List Char) :=
  match charIdx raw '\x7b', charIdxLast raw '\x7d' with
  | some a, some b => if a < b then some (pyStrip (pySlice raw a (b + 1))) else none
  | _, _ => none

/-- The single candidate the sanitizer commits to: the fence path exactly when
both markers occur, else the brace path — never both. -/
def chosenCandidate (raw : List Char) : Option (List Char) :=
  if containsSub raw startMarker && containsSub raw endMarker then fenceCandidate raw
  else braceCandidate raw

theorem sanitize_eq_cases (raw : List Char) :
    sanitize_json_response raw
      = (match chosenCandidate raw with
         | none => none
         | some js => if js ≠ [] ∧ (jloads js).isSome then some js else none) := by
  rw [sanitize_json_response, chosenCandidate, fenceCandidate, braceCandidate]
  cases hcond : containsSub raw startMarker && containsSub raw endMarker with
  | true =>
    simp only [if_pos]
    cases hsm : subFind startMarker raw with
    | none => rfl
    | some i =>
      dsimp only
      cases hj : subFindFrom endMarker raw (i + startMarker.length) with
      | none => rfl
      | some j => rfl
  | false =>
    simp only [Bool.false_eq_true, if_false]
    cases ha : charIdx raw '\x7b' with
    | none => rfl
    | some a =>
      cases hb : charIdxLast raw '\x7d' with
      | none => rfl
      | some b =>
        by_cases hab : a < b
        · simp only [if_pos hab]
        · simp only [if_neg hab]

/-- The process environment (`os.environ`), as a key/value association list. -/
abbrev Env := List (List Char × List Char)

/-- Python's `os.environ.get(key)`. -/
def envGet : Env → List Char → Option (List Char)
  | [], _ => none
  | (k, v) :: t, x => if k = x then some v else envGet t x

/-- The failures the module raises: the `ValueError` raised for a missing
credential, the `ValueError` from `sanitize_json_response`, the decode error
re-raised by `parse_json_response`, and the `AttributeError` a `.get` on a
non-dict parse result would raise in `agent_validatePrompt`. -/
inductive LLMError where
  | configError
  | malformedResponse
  | decodeError
  | attrError
deriving DecidableEq

/-- The `ToolPromptInput` value object handed to the dispatcher. -/
structure ToolPromptInput where
  prompt : List Char
  context_instructions : List Char

/-- Translation of `prompt_llm_openai` (tool_activities.py:116-144).  The
backend's reply text is the `reply` parameter (the one network exchange,
modelled as an oracle); note the absence of any credential check: the possibly
missing key is passed straight to the SDK client constructor. -/
def prompt_llm_openai (env : Env) (reply : List Char) (_input : ToolPromptInput) :
    Except LLMError Jval :=
  let _api_key := envGet env (("OPENAI_API_KEY").toList)
  match sanitize_json_response reply with
  | none => .error .malformedResponse
  | some js =>
    match parse_json_response js with
    | none => .error .decodeError
    | some v => .ok v

/-- Translation of `prompt_llm_ollama` (tool_activities.py:146-168); the model
name defaults to `qwen2.5:14b` and no credential is needed. -/
def prompt_llm_ollama (env : Env) (reply : List Char) (_input : ToolPromptInput) :
    Except LLMError Jval :=
  let _model_name := (envGet env (("OLLAMA_MODEL_NAME").toList)).getD (("qwen2.5:14b").toList)
  match sanitize_json_response reply with
  | none => .error .malformedResponse
  | some js =>
    match parse_json_response js with
    | none => .error .decodeError
    | some v => .ok v

/-- Translation of `prompt_llm_google` (tool_activities.py:170-189): a missing
or empty (`if not api_key`) credential raises before anything else happens. -/
def prompt_llm_google (env : Env) (reply : List Char) (_input : ToolPromptInput) :
    Except LLMError Jval :=
  match envGet env (("GOOGLE_API_KEY").toList) with
  | none => .error .configError
  | some key =>
    if key = [] then .error .configError
    else
      match sanitize_json_response reply with
      | none => .error .malformedResponse
      | some js =>
        match parse_json_response js with
        | none => .error .decodeError
        | some v => .ok v

/-- Translation of `prompt_llm_anthropic` (tool_activities.py:191-220): same
credential guard as the Google adapter. -/
def prompt_llm_anthropic (env : Env) (reply : List Char) (_input : ToolPromptInput) :
    Except LLMError Jval :=
  match envGet env (("ANTHROPIC_API_KEY").toList) with
  | none => .error .configError
  | some key =>
    if key = [] then .error .configError
    else
      match sanitize_json_response reply with
      | none => .error .malformedResponse
      | some js =>
        match parse_json_response js with
        | none => .error .decodeError
        | some v => .ok v

/-- Translation of `prompt_llm_deepseek` (tool_activities.py:222-245): like the
OpenAI adapter, the possibly missing key goes straight to the SDK client with
no check. -/
def prompt_llm_deepseek (env : Env) (reply : List Char) (_input : ToolPromptInput) :
    Except LLMError Jval :=
  let _api_key := envGet env (("DEEPSEEK_API_KEY").toList)
  match sanitize_json_response reply with
  | none => .error .malformedResponse
  | some js =>
    match parse_json_response js with
    | none => .error .decodeError
    | some v => .ok v

/-- ASCII lowercasing of a selector string, Python's `.lower()` on the values
the dispatcher compares against. -/
def toLowerL (l : List Char) : List Char := l.map Char.toLower

/-- The selector computed on line 90:
`os.environ.get("LLM_PROVIDER", "openai").lower()`. -/
def llmProviderSelector (env : Env) : List Char :=
  toLowerL ((envGet env (("LLM_PROVIDER").toList)).getD (("openai").toList))

/-- Translation of the dispatcher `agent_toolPlanner` (tool_activities.py:89-103):
the literal `if`/`elif` chain over the lowered selector. -/
def agent_toolPlanner (env : Env) (reply : List Char) (input : ToolPromptInput) :
    Except LLMError Jval :=
  let llm_provider := llmProviderSelector env
  if llm_provider = ("ollama").toList then prompt_llm_ollama env reply input
  else if llm_provider = ("google").toList then prompt_llm_google env reply input
  else if llm_provider = ("anthropic").toList then prompt_llm_anthropic env reply input
  else if llm_provider = ("deepseek").toList then prompt_llm_deepseek env reply input
  else prompt_llm_openai env reply input

/-- The five backends the dispatcher can route to. -/
inductive Provider where
  | openai
  | ollama
  | google
  | anthropic
  | deepseek
deriving DecidableEq

/-- Which adapter the dispatcher's `if`/`elif` chain selects. -/
def routeProvider (env : Env) : Provider :=
  let llm_provider := llmProviderSelector env
  if llm_provider = ("ollama").toList then .ollama
  else if llm_provider = ("google").toList then .google
  else if llm_provider = ("anthropic").toList then .anthropic
  else if llm_provider = ("deepseek").toList then .deepseek
  else .openai

/-- Invocation of the adapter named by a `Provider` tag. -/
def dispatchVia (p : Provider) (env : Env) (reply : List Char) (input : ToolPromptInput) :
    Except LLMError Jval :=
  match p with
  | .openai => prompt_llm_openai env reply input
  | .ollama => prompt_llm_ollama env reply input
  | .google => prompt_llm_google env reply input
  | .anthropic => prompt_llm_anthropic env reply input
  | .deepseek => prompt_llm_deepseek env reply input

/-- One argument of a tool: name and type tag (models/data_types). -/
structure ToolArg where
  name : List Char
  type : List Char
deriving DecidableEq

/-- One tool available to the agent. -/
structure ToolSpec where
  name : List Char
  description : List Char
  arguments : List ToolArg
deriving DecidableEq

/-- The agent goal: a description plus the ordered tool catalog. -/
structure AgentGoal where
  description : List Char
  tools : List ToolSpec

/-- The input of `agent_validatePrompt`: goal, conversation history (opaque
JSON, serialized verbatim) and the user's prompt. -/
structure ValidationInput where
  agent_goal : AgentGoal
  conversation_history : Jval
  prompt : List Char

/-- The outcome record built on lines 83-86; the fields carry whatever JSON
values `result.get` returns. -/
structure ValidationResult where
  validationResult : Jval
  validationFailedReason : Jval

/-- Python's `sep.join(items)`. -/
def joinSep (sep : List Char) : List (List Char) → List Char
  | [] => []
  | [x] => x
  | x :: y :: t => x ++ sep ++ joinSep sep (y :: t)

/-- One `f"{arg.name} ({arg.type})"` item (line 41). -/
def argItem (a : ToolArg) : List Char :=
  a.name ++ (" (").toList ++ a.type ++ (")").toList

/-- One tool's block `tool_str` (lines 38-42): name, description, and the
comma-joined argument list. -/
def toolLine (t : ToolSpec) : List Char :=
  ("Tool: ").toList ++ t.name ++ ("\n").toList
    ++ ("Description: ").toList ++ t.description ++ ("\n").toList
    ++ ("Arguments: ").toList ++ joinSep ((", ").toList) (t.arguments.map argItem)

/-- The `tools_str` catalog (lines 36-44): one block per tool, joined by
newlines, in the order the goal lists them. -/
def toolsBlock (g : AgentGoal) : List Char :=
  joinSep (("\n").toList) (g.tools.map toolLine)

/-- The `context_instructions` f-string (lines 50-55).  The history is
serialized with `json.dumps(..., indent=2)` in the source; the compact
serialization stands in for it here, and no claim depends on the
indentation of this block. -/
def context_instructions (vi : ValidationInput) : List Char :=
  ("The agent goal and tools are as follows:\n            Description: ").toList
    ++ vi.agent_goal.description
    ++ ("\n            Available Tools:\n            ").toList
    ++ toolsBlock vi.agent_goal
    ++ ("\n            The conversation history to date is:\n            ").toList
    ++ dumps vi.conversation_history

/-- The fixed instruction text of the `validation_prompt` f-string after the
embedded user prompt (lines 59-74), with Python's doubled braces rendered. -/
def validationGuide : List Char :=
  ("\n            Please validate if this prompt makes sense given the agent goal and conversation history.\n            If the prompt makes sense toward the goal then validationResult should be true.\n            If the prompt is wildly nonsensical or makes no sense toward the goal and current conversation history then validationResult should be false.\n            If the response is low content such as \"yes\" or \"that\x27s right\" then the user is probably responding to a previous prompt.  \n             Therefore examine it in the context of the conversation history to determine if it makes sense and return true if it makes sense.\n            Return ONLY a JSON object with the following structure:\n                \"validationResult\": true/false,\n                \"validationFailedReason\": \"If validationResult is false, provide a clear explanation to the user in the response field \n                about why their request doesn\x27t make sense in the context and what information they should provide instead.\n                validationFailedReason should contain JSON in the format\n                \x7b\n                    \"next\": \"question\",\n                    \"response\": \"[your reason here and a response to get the user back on track with the agent goal]\"\n                \x7d\n                If validationResult is true (the prompt makes sense), return an empty dict as its value \x7b\x7d\"\n            ").toList

/-- The `validation_prompt` f-string (lines 58-74). -/
def validation_prompt (vi : ValidationInput) : List Char :=
  ("The user\x27s prompt is: \"").toList ++ vi.prompt ++ ("\"").toList ++ validationGuide

/-- The `ToolPromptInput` built on lines 77-79. -/
def promptInputOf (vi : ValidationInput) : ToolPromptInput :=
  ⟨validation_prompt vi, context_instructions vi⟩

/-- First-match association lookup, the `dict` access underlying `.get`. -/
def lookupKV : List (List Char × Jval) → List Char → Option Jval
  | [], _ => none
  | (k, v) :: t, x => if k = x then some v else lookupKV t x

/-- Python's `result.get(key, default)` on a parsed JSON object. -/
def dictGet (kvs : List (List Char × Jval)) (k : List Char) (d : Jval) : Jval :=
  (lookupKV kvs k).getD d

/-- Translation of `agent_validatePrompt` (tool_activities.py:28-86): build the
context and prompt, dispatch, then map the parsed object into the outcome with
line 83-86's defaults (`False` and `{}`).  A non-object parse result would make
`.get` raise, modelled as `attrError`. -/
def agent_validatePrompt (env : Env) (reply : List Char) (vi : ValidationInput) :
    Except LLMError ValidationResult :=
  match agent_toolPlanner env reply (promptInputOf vi) with
  | .error e => .error e
  | .ok (.jobj kvs) =>
    .ok ⟨dictGet kvs (("validationResult").toList) (.jbool false),
         dictGet kvs (("validationFailedReason").toList) (.jobj [])⟩
  | .ok _ => .error .attrError

/-- A parsed value is a JSON object at top level. -/
def jsonIsObj : Jval → Bool
  | .jobj _ => true
  | _ => false

theorem chosenCandidate_within (raw js : List Char) (h : chosenCandidate raw = some js) :
    js <:+: raw := by
  rw [chosenCandidate] at h
  by_cases hcond : (containsSub raw startMarker && containsSub raw endMarker) = true
  · rw [if_pos hcond, fenceCandidate] at h
    cases hsm : subFind startMarker raw with
    | none => rw [hsm] at h; cases h
    | some i =>
      rw [hsm] at h
      dsimp only at h
      cases hj : subFindFrom endMarker raw (i + startMarker.length) with
      | none => rw [hj] at h; cases h
      | some j =>
        rw [hj] at h
        dsimp only at h
        cases h
        exact (pyStrip_within _).trans (pySlice_within raw _ _)
  · rw [if_neg hcond, braceCandidate] at h
    cases ha : charIdx raw '\x7b' with
    | none => rw [ha] at h; cases h
    | some a =>
      rw [ha] at h
      cases hb : charIdxLast raw '\x7d' with
      | none => rw [hb] at h; cases h
      | some b =>
        rw [hb] at h
        dsimp only at h
        by_cases hab : a < b
        · rw [if_pos hab] at h
          cases h
          exact (pyStrip_within _).trans (pySlice_within raw _ _)
        · rw [if_neg hab] at h
          cases h

theorem sanitize_some_guard (raw js : List Char) (h : sanitize_json_response raw = some js) :
    chosenCandidate raw = some js ∧ js ≠ [] ∧ (jloads js).isSome = true := by
  rw [sanitize_eq_cases] at h
  cases hc : chosenCandidate raw with
  | none => rw [hc] at h; cases h
  | some js0 =>
    rw [hc] at h
    dsimp only at h
    by_cases hg : js0 ≠ [] ∧ (jloads js0).isSome = true
    · rw [if_pos hg] at h
      cases h
      exact ⟨rfl, hg⟩
    · rw [if_neg hg] at h
      cases h

/-- C1 (counterexample): the claim fails as stated.  The object whose only
value is the string of three backticks serializes to text containing the
closing-fence marker; embedded in a fenced block with plain prose around it,
`sanitize_json_response` cuts the candidate at the marker inside the string
literal and rejects it, instead of succeeding. -/
theorem c1_fence_roundtrip_cex :
    sanitize_json_response ((("Sure!\n").toList)
        ++ (startMarker
          ++ (dumps (Jval.jobj [(('a' :: []), Jval.jstr ('\x60' :: '\x60' :: '\x60' :: []))])
            ++ (endMarker ++ (("\nThanks").toList))))) = none := by
  decide

/-- C1 (amended): the fenced round trip holds provided no backtick occurs in
the prose before the block nor inside the block's contents (in particular the
serialized object contains no fence marker): for every object `o` whose
serialization the block contains up to surrounding whitespace,
`sanitize_json_response` returns exactly `dumps o`, and that text re-parses to
the equal object `o`. -/
theorem c1_fence_roundtrip (pre mid post : List Char) (o : Jval)
    (hpre : '\x60' ∉ pre) (hmid : '\x60' ∉ mid) (hstrip : pyStrip mid = dumps o) :
    sanitize_json_response (pre ++ (startMarker ++ (mid ++ (endMarker ++ post))))
      = some (dumps o) ∧ jloads (dumps o) = some o := by
  refine ⟨?_, jloads_dumps o⟩
  have hSM : subFind startMarker (pre ++ (startMarker ++ (mid ++ (endMarker ++ post))))
      = some pre.length := subFind_SM pre _ hpre
  have h1 : containsSub (pre ++ (startMarker ++ (mid ++ (endMarker ++ post)))) startMarker
      = true := by
    rw [containsSub, hSM]
    rfl
  have h2 : containsSub (pre ++ (startMarker ++ (mid ++ (endMarker ++ post)))) endMarker
      = true := by
    rw [containsSub, subFind_shift endMarker '\x60' pre endMarker_head hpre,
      subFind_EM_under_SM]
    rfl
  have hcond : (containsSub (pre ++ (startMarker ++ (mid ++ (endMarker ++ post)))) startMarker
      && containsSub (pre ++ (startMarker ++ (mid ++ (endMarker ++ post)))) endMarker) = true := by
    rw [h1, h2]
    rfl
  have hgroup : pre ++ (startMarker ++ (mid ++ (endMarker ++ post)))
      = (pre ++ startMarker) ++ (mid ++ (endMarker ++ post)) := by
    simp [List.append_assoc]
  have hlen : pre.length + startMarker.length = (pre ++ startMarker).length :=
    (List.length_append pre startMarker).symm
  have hdrop : (pre ++ (startMarker ++ (mid ++ (endMarker ++ post)))).drop
      (pre.length + startMarker.length) = mid ++ (endMarker ++ post) := by
    rw [hgroup, hlen]
    exact List.drop_left _ _
  have hFrom : subFindFrom endMarker (pre ++ (startMarker ++ (mid ++ (endMarker ++ post))))
      (pre.length + startMarker.length)
      = some (mid.length + (pre.length + startMarker.length)) := by
    rw [subFindFrom, hdrop, subFind_shift endMarker '\x60' mid endMarker_head hmid,
      subFind_here]
    simp
  have hslice : pySlice (pre ++ (startMarker ++ (mid ++ (endMarker ++ post))))
      (pre.length + startMarker.length) (mid.length + (pre.length + startMarker.length)) = mid := by
    rw [hgroup, hlen, Nat.add_comm mid.length (pre ++ startMarker).length]
    exact pySlice_mid (pre ++ startMarker) mid (endMarker ++ post)
  have hchosen : chosenCandidate (pre ++ (startMarker ++ (mid ++ (endMarker ++ post))))
      = some (dumps o) := by
    rw [chosenCandidate, if_pos hcond, fenceCandidate, hSM]
    dsimp only
    rw [hFrom]
    dsimp only
    rw [hslice, hstrip]
  rw [sanitize_eq_cases, hchosen]
  dsimp only
  rw [if_pos ⟨dumps_ne_nil o, by rw [jloads_dumps]; rfl⟩]

/-- C1 (witness): the amended round trip at a concrete instance — prose, a
newline-padded fenced block holding `\x7b"a": 1\x7d`, and trailing prose. -/
theorem c1_fence_roundtrip_witness :
    sanitize_json_response ((("Sure! ").toList)
        ++ (startMarker
          ++ (('\n' :: (dumps (Jval.jobj [(('a' :: []), Jval.jint 1)]) ++ ('\n' :: [])))
            ++ (endMarker ++ ((" bye").toList)))))
      = some (dumps (Jval.jobj [(('a' :: []), Jval.jint 1)]))
    ∧ jloads (dumps (Jval.jobj [(('a' :: []), Jval.jint 1)]))
      = some (Jval.jobj [(('a' :: []), Jval.jint 1)]) :=
  c1_fence_roundtrip (("Sure! ").toList)
    ('\n' :: (dumps (Jval.jobj [(('a' :: []), Jval.jint 1)]) ++ ('\n' :: [])))
    ((" bye").toList) (Jval.jobj [(('a' :: []), Jval.jint 1)])
    (by decide) (by decide) (by decide)

/-- C2: when the input has no fence opening marker and consists of a serialized
object with prose before it holding no `\x7b` and prose after it holding no
`\x7d` (so the serialized object is exactly the first-`\x7b`-to-last-`\x7d`
span), `sanitize_json_response` returns that span trimmed — the serialization
itself — and it parses back to the JSON object. -/
theorem c2_brace_fallback (pre post : List Char) (ms : List (List Char × Jval))
    (hnf : containsSub (pre ++ (dumps (Jval.jobj ms) ++ post)) startMarker = false)
    (hpre : '\x7b' ∉ pre) (hpost : '\x7d' ∉ post) :
    sanitize_json_response (pre ++ (dumps (Jval.jobj ms) ++ post))
      = some (dumps (Jval.jobj ms))
    ∧ jloads (dumps (Jval.jobj ms)) = some (Jval.jobj ms) := by
  refine ⟨?_, jloads_dumps _⟩
  have hcond : (containsSub (pre ++ (dumps (Jval.jobj ms) ++ post)) startMarker
      && containsSub (pre ++ (dumps (Jval.jobj ms) ++ post)) endMarker) = false := by
    rw [hnf]
    exact Bool.false_and _
  have hshape : dumps (Jval.jobj ms) = ('\x7b' :: dumpsMems ms) ++ ['\x7d'] := by
    rw [dumps]
  have ha : charIdx (pre ++ (dumps (Jval.jobj ms) ++ post)) '\x7b' = some pre.length := by
    rw [hshape, show (((('\x7b' :: dumpsMems ms) ++ ['\x7d']) : List Char) ++ post)
        = '\x7b' :: (dumpsMems ms ++ ['\x7d'] ++ post) from by simp]
    exact charIdx_split pre _ '\x7b' hpre
  have hb : charIdxLast (pre ++ (dumps (Jval.jobj ms) ++ post)) '\x7d'
      = some (pre.length + ('\x7b' :: dumpsMems ms).length) := by
    rw [hshape, show ((('\x7b' :: dumpsMems ms) ++ ['\x7d']) ++ post)
        = (('\x7b' :: dumpsMems ms) ++ ['\x7d']) ++ post from rfl]
    exact charIdxLast_split pre ('\x7b' :: dumpsMems ms) post '\x7d' hpost
  have hab : pre.length < pre.length + ('\x7b' :: dumpsMems ms).length := by
    simp
  have hslice : pySlice (pre ++ (dumps (Jval.jobj ms) ++ post)) pre.length
      ((pre.length + ('\x7b' :: dumpsMems ms).length) + 1) = dumps (Jval.jobj ms) := by
    have hlen : (pre.length + ('\x7b' :: dumpsMems ms).length) + 1
        = pre.length + (dumps (Jval.jobj ms)).length := by
      rw [hshape]
      simp only [List.length_append, List.length_cons, List.length_nil]
      omega
    rw [hlen]
    exact pySlice_mid pre (dumps (Jval.jobj ms)) post
  have hstrip : pyStrip (dumps (Jval.jobj ms)) = dumps (Jval.jobj ms) := by
    refine pyStrip_eq_self _ '\x7b' '\x7d' ?_ (by decide) ?_ (by decide)
    · rw [hshape]
      rfl
    · rw [hshape]
      exact List.getLast?_concat _
  have hchosen : chosenCandidate (pre ++ (dumps (Jval.jobj ms) ++ post))
      = some (dumps (Jval.jobj ms)) := by
    rw [chosenCandidate, if_neg (by rw [hcond]; exact Bool.false_ne_true), braceCandidate,
      ha, hb]
    dsimp only
    rw [if_pos hab, hslice, hstrip]
  rw [sanitize_eq_cases, hchosen]
  dsimp only
  rw [if_pos ⟨dumps_ne_nil _, by rw [jloads_dumps]; rfl⟩]

/-- C2 (witness): the fallback at a concrete instance — leading and trailing
prose around `\x7b"a": 1\x7d`, no fence markers. -/
theorem c2_brace_fallback_witness :
    sanitize_json_response ((("The answer is: ").toList)
        ++ (dumps (Jval.jobj [(('a' :: []), Jval.jint 1)]) ++ ((" hope that helps").toList)))
      = some (dumps (Jval.jobj [(('a' :: []), Jval.jint 1)]))
    ∧ jloads (dumps (Jval.jobj [(('a' :: []), Jval.jint 1)]))
      = some (Jval.jobj [(('a' :: []), Jval.jint 1)]) :=
  c2_brace_fallback (("The answer is: ").toList) ((" hope that helps").toList)
    [(('a' :: []), Jval.jint 1)] (by decide) (by decide) (by decide)

/-- C3 (counterexample): the claim's failure characterization is wrong.  On
`"```json \x7b\"a\": 1\x7d"` the sanitizer fails — the opening marker makes it
commit to the fence path, and `str.index` raises because no `"```"` follows —
although per the claim an extraction span exists (a `\x7b` precedes a `\x7d`)
and that brace span parses as JSON, so the claim predicts success. -/
theorem c3_failure_condition_cex :
    sanitize_json_response (startMarker ++ ((" \x7b\"a\": 1\x7d").toList)) = none
    ∧ charIdx (startMarker ++ ((" \x7b\"a\": 1\x7d").toList)) '\x7b' = some 8
    ∧ charIdxLast (startMarker ++ ((" \x7b\"a\": 1\x7d").toList)) '\x7d' = some 15
    ∧ 8 < 15
    ∧ (jloads (pyStrip (pySlice (startMarker ++ ((" \x7b\"a\": 1\x7d").toList)) 8 (15 + 1)))).isSome
      = true := by
  refine ⟨by decide, by decide, by decide, by decide, by decide⟩

/-- C3 (amended): `sanitize_json_response` fails exactly when the single
candidate it commits to is missing, empty, or does not parse as JSON — where
the candidate is the trimmed between-marker span when both fence markers occur
(missing when no `"```"` occurs at or after the end of the first `"```json"`),
and otherwise the trimmed first-`\x7b`-to-last-`\x7d` span (missing when no
`\x7b` strictly precedes a `\x7d`); it never falls back from one extraction
strategy to the other. -/
theorem c3_failure_condition (raw : List Char) :
    sanitize_json_response raw = none
      ↔ (match chosenCandidate raw with
         | none => True
         | some js => js = [] ∨ jloads js = none) := by
  rw [sanitize_eq_cases]
  cases hc : chosenCandidate raw with
  | none => simp
  | some js =>
    dsimp only
    by_cases hg : js ≠ [] ∧ (jloads js).isSome = true
    · rw [if_pos hg]
      simp only [reduceCtorEq, false_iff]
      rintro (hnil | hnone)
      · exact hg.1 hnil
      · rw [hnone] at hg
        exact Bool.false_ne_true hg.2
    · rw [if_neg hg]
      simp only [true_iff]
      by_cases hnil : js = []
      · exact Or.inl hnil
      · refine Or.inr ?_
        rcases h2 : jloads js with _ | v
        · rfl
        · exact absurd ⟨hnil, by rw [h2]; rfl⟩ hg

/-- C7 (counterexample): the claim fails as stated — `json.loads` accepts any
JSON value, so a fenced top-level array is returned by
`sanitize_json_response`, and its parsed top-level value is not an object. -/
theorem c7_substring_valid_cex :
    sanitize_json_response (startMarker ++ ((("[1, 2]").toList) ++ endMarker))
      = some (("[1, 2]").toList)
    ∧ jloads (("[1, 2]").toList) = some (Jval.jarr [Jval.jint 1, Jval.jint 2])
    ∧ (jloads (("[1, 2]").toList)).map jsonIsObj = some false := by
  refine ⟨by decide, rfl, rfl⟩

/-- C7 (amended): whenever `sanitize_json_response` succeeds, the returned
string is a contiguous substring of the input and parses as valid JSON — but
its top-level value may be of any JSON kind, not only an object. -/
theorem c7_substring_valid (raw js : List Char)
    (h : sanitize_json_response raw = some js) :
    js <:+: raw ∧ (jloads js).isSome = true := by
  obtain ⟨hchosen, _, hparse⟩ := sanitize_some_guard raw js h
  exact ⟨chosenCandidate_within raw js hchosen, hparse⟩

/-- C7 (witness): the amended invariant at the concrete input `"\x7b\x7d"`. -/
theorem c7_substring_valid_witness :
    sanitize_json_response (("\x7b\x7d").toList) = some (("\x7b\x7d").toList)
    ∧ ((("\x7b\x7d").toList) <:+: (("\x7b\x7d").toList)
      ∧ (jloads (("\x7b\x7d").toList)).isSome = true) :=
  ⟨by decide, c7_substring_valid (("\x7b\x7d").toList) (("\x7b\x7d").toList) (by decide)⟩

/-- C9: whenever `sanitize_json_response` succeeds, `parse_json_response` on
the returned string also succeeds — the sanitizer has already verified the
candidate with `json.loads`, so the decode-error branch is unreachable on
sanitized input. -/
theorem c9_parse_after_sanitize (raw js : List Char)
    (h : sanitize_json_response raw = some js) :
    (parse_json_response js).isSome = true := by
  obtain ⟨_, _, hparse⟩ := sanitize_some_guard raw js h
  exact hparse

/-- C9 (witness): the implication at the concrete input `"ok \x7b\x7d"`. -/
theorem c9_parse_after_sanitize_witness :
    (parse_json_response (("\x7b\x7d").toList)).isSome = true :=
  c9_parse_after_sanitize (("ok \x7b\x7d").toList) (("\x7b\x7d").toList) (by decide)

/-- C4 (counterexample): the claim fails as stated for the OpenAI and DeepSeek
adapters — with no credential anywhere in the environment, both proceed past
any check (the missing key goes to the SDK constructor) and return the parsed
backend reply instead of failing with a configuration error. -/
theorem c4_credential_check_cex :
    envGet [] (("OPENAI_API_KEY").toList) = none
    ∧ prompt_llm_openai [] (("\x7b\"a\": 1\x7d").toList) ⟨[], []⟩
      = .ok (Jval.jobj [(('a' :: []), Jval.jint 1)])
    ∧ envGet [] (("DEEPSEEK_API_KEY").toList) = none
    ∧ prompt_llm_deepseek [] (("\x7b\"a\": 1\x7d").toList) ⟨[], []⟩
      = .ok (Jval.jobj [(('a' :: []), Jval.jint 1)]) :=
  ⟨rfl, rfl, rfl, rfl⟩

/-- C4 (amended): only the Google and Anthropic adapters check their
credential: when it is absent from the environment (or empty, which Python's
`if not api_key` also treats as missing), they fail with the configuration
error before the reply is ever used; OpenAI and DeepSeek perform no such
check. -/
theorem c4_credential_check (env : Env) (reply : List Char) (input : ToolPromptInput) :
    ((envGet env (("GOOGLE_API_KEY").toList) = none
        ∨ envGet env (("GOOGLE_API_KEY").toList) = some []) →
      prompt_llm_google env reply input = .error .configError)
    ∧ ((envGet env (("ANTHROPIC_API_KEY").toList) = none
        ∨ envGet env (("ANTHROPIC_API_KEY").toList) = some []) →
      prompt_llm_anthropic env reply input = .error .configError) := by
  constructor
  · rintro (h | h)
    · rw [prompt_llm_google, h]
    · rw [prompt_llm_google, h]
      rfl
  · rintro (h | h)
    · rw [prompt_llm_anthropic, h]
    · rw [prompt_llm_anthropic, h]
      rfl

/-- C4 (witness): the amended guard at the empty environment. -/
theorem c4_credential_check_witness :
    prompt_llm_google [] [] ⟨[], []⟩ = .error .configError
    ∧ prompt_llm_anthropic [] [] ⟨[], []⟩ = .error .configError :=
  ⟨(c4_credential_check [] [] ⟨[], []⟩).1 (Or.inl rfl),
   (c4_credential_check [] [] ⟨[], []⟩).2 (Or.inl rfl)⟩

/-- C5 (counterexample): the claim fails as stated — `"Google"` is a value
other than the five lowercase names, so per the claim it should route to the
default OpenAI adapter, but the dispatcher lowercases the selector first and
routes it to the Google adapter. -/
theorem c5_route_selection_cex :
    routeProvider [((("LLM_PROVIDER").toList), (("Google").toList))] = Provider.google
    ∧ (("Google").toList) ≠ (("ollama").toList)
    ∧ (("Google").toList) ≠ (("google").toList)
    ∧ (("Google").toList) ≠ (("anthropic").toList)
    ∧ (("Google").toList) ≠ (("deepseek").toList)
    ∧ Provider.google ≠ Provider.openai := by
  refine ⟨by decide, by decide, by decide, by decide, by decide, by decide⟩

/-- C5 (amended): the dispatcher routes every call to exactly one adapter,
selected from the lowercased `LLM_PROVIDER` value (with `"openai"` as the
default when the key is absent): the four named lowercase values select their
adapters, and every other lowercased value — including the absent case —
selects the OpenAI adapter. -/
theorem c5_route_selection (env : Env) (reply : List Char) (input : ToolPromptInput) :
    agent_toolPlanner env reply input = dispatchVia (routeProvider env) env reply input
    ∧ (routeProvider env = Provider.ollama ↔ llmProviderSelector env = (("ollama").toList))
    ∧ (routeProvider env = Provider.google ↔ llmProviderSelector env = (("google").toList))
    ∧ (routeProvider env = Provider.anthropic
        ↔ llmProviderSelector env = (("anthropic").toList))
    ∧ (routeProvider env = Provider.deepseek
        ↔ llmProviderSelector env = (("deepseek").toList))
    ∧ (routeProvider env = Provider.openai
        ↔ (llmProviderSelector env ≠ (("ollama").toList)
          ∧ llmProviderSelector env ≠ (("google").toList)
          ∧ llmProviderSelector env ≠ (("anthropic").toList)
          ∧ llmProviderSelector env ≠ (("deepseek").toList))) := by
  by_cases h1 : llmProviderSelector env = (("ollama").toList)
  · simp_all [agent_toolPlanner, routeProvider, dispatchVia, h1]
  · by_cases h2 : llmProviderSelector env = (("google").toList)
    · simp_all [agent_toolPlanner, routeProvider, dispatchVia, h2]
    · by_cases h3 : llmProviderSelector env = (("anthropic").toList)
      · simp_all [agent_toolPlanner, routeProvider, dispatchVia, h3]
      · by_cases h4 : llmProviderSelector env = (("deepseek").toList)
        · simp_all [agent_toolPlanner, routeProvider, dispatchVia, h4]
        · simp_all [agent_toolPlanner, routeProvider, dispatchVia]

/-- C10: provider selection is case-insensitive — two environments whose
`LLM_PROVIDER` values agree after lowercasing route to the same adapter. -/
theorem c10_case_insensitive_route (env1 env2 : Env) (v1 v2 : List Char)
    (h1 : envGet env1 (("LLM_PROVIDER").toList) = some v1)
    (h2 : envGet env2 (("LLM_PROVIDER").toList) = some v2)
    (hlow : toLowerL v1 = toLowerL v2) :
    routeProvider env1 = routeProvider env2 := by
  have hsel : llmProviderSelector env1 = llmProviderSelector env2 := by
    rw [llmProviderSelector, llmProviderSelector, h1, h2]
    simpa using hlow
  rw [routeProvider, routeProvider, hsel]

/-- C10 (witness): `"Google"` and `"OLLAMA"` route like their lowercase
forms — shown by instantiating the theorem at mixed-case and lowercase
environments, plus the concrete routes. -/
theorem c10_case_insensitive_route_witness :
    routeProvider [((("LLM_PROVIDER").toList), (("Google").toList))]
      = routeProvider [((("LLM_PROVIDER").toList), (("google").toList))]
    ∧ routeProvider [((("LLM_PROVIDER").toList), (("OLLAMA").toList))] = Provider.ollama :=
  ⟨c10_case_insensitive_route _ _ (("Google").toList) (("google").toList) rfl rfl (by decide),
   by decide⟩

theorem joinSep_cons_ne (sep x : List Char) (xs : List (List Char)) (h : xs ≠ []) :
    joinSep sep (x :: xs) = x ++ sep ++ joinSep sep xs := by
  cases xs with
  | nil => exact absurd rfl h
  | cons y t => rfl

theorem mem_infix_joinSep (sep : List Char) (f : ToolSpec → List Char) :
    ∀ (l : List ToolSpec) (t : ToolSpec), t ∈ l → f t <:+: joinSep sep (l.map f)
  | [], t, ht => absurd ht (List.not_mem_nil t)
  | x :: xs, t, ht => by
    cases xs with
    | nil =>
      have hx : t = x := by simpa using ht
      subst hx
      exact List.infix_refl _
    | cons y ys =>
      rw [List.map_cons, joinSep_cons_ne sep (f x) ((y :: ys).map f) (by simp)]
      rcases List.mem_cons.mp ht with hx | hmem
      · subst hx
        rw [List.append_assoc]
        exact (List.prefix_append _ _).isInfix
      · have ih := mem_infix_joinSep sep f (y :: ys) t hmem
        exact ih.trans (List.suffix_append _ _).isInfix

/-- C6: for every parsed object the dispatcher hands back,
`agent_validatePrompt` builds the outcome with `result.get`'s defaults — the
`"validationResult"` value when the key is present and `False` otherwise, the
`"validationFailedReason"` value when present and `\x7b\x7d` otherwise — and in
particular an empty parsed object yields `validationResult = false` and
`validationFailedReason = \x7b\x7d`. -/
theorem c6_validation_defaults :
    (∀ (env : Env) (reply : List Char) (vi : ValidationInput)
        (kvs : List (List Char × Jval)),
      agent_toolPlanner env reply (promptInputOf vi) = .ok (.jobj kvs) →
      agent_validatePrompt env reply vi
        = .ok ⟨dictGet kvs (("validationResult").toList) (.jbool false),
               dictGet kvs (("validationFailedReason").toList) (.jobj [])⟩)
    ∧ agent_validatePrompt [] (("\x7b\x7d").toList) ⟨⟨[], []⟩, .jnull, []⟩
      = .ok ⟨.jbool false, .jobj []⟩ := by
  constructor
  · intro env reply vi kvs h
    rw [agent_validatePrompt, h]
  · rfl

/-- C6 (witness): the mapping at a concrete dispatch result holding only
`"validationResult": true`. -/
theorem c6_validation_defaults_witness :
    agent_validatePrompt [] (("\x7b\"validationResult\": true\x7d").toList) ⟨⟨[], []⟩, .jnull, []⟩
      = .ok ⟨dictGet [((("validationResult").toList), Jval.jbool true)]
               (("validationResult").toList) (.jbool false),
             dictGet [((("validationResult").toList), Jval.jbool true)]
               (("validationFailedReason").toList) (.jobj [])⟩ :=
  c6_validation_defaults.1 [] (("\x7b\"validationResult\": true\x7d").toList)
    ⟨⟨[], []⟩, .jnull, []⟩ [((("validationResult").toList), Jval.jbool true)] rfl

/-- C8: the validator's tool catalog is rendered deterministically — blocks
appear one per paragraph in exactly the tools' order (head block first,
newline-joined rest after), each block is the name, description and the
comma-joined `name (type)` argument list, every listed tool's block occurs in
the catalog, and the catalog occurs verbatim inside the composed context
instructions. -/
theorem c8_tool_catalog (g : AgentGoal) :
    (∀ t ts, g.tools = t :: ts →
      toolsBlock g
        = toolLine t ++ (if ts = [] then []
            else ('\n' :: []) ++ joinSep (("\n").toList) (ts.map toolLine)))
    ∧ (∀ t : ToolSpec, toolLine t
        = ("Tool: ").toList ++ t.name ++ ("\n").toList
          ++ ("Description: ").toList ++ t.description ++ ("\n").toList
          ++ ("Arguments: ").toList
          ++ joinSep ((", ").toList)
              (t.arguments.map (fun a => a.name ++ (" (").toList ++ a.type ++ (")").toList)))
    ∧ (∀ t, t ∈ g.tools → toolLine t <:+: toolsBlock g)
    ∧ (∀ vi : ValidationInput, vi.agent_goal = g →
        toolsBlock g <:+: context_instructions vi) := by
  refine ⟨?_, ?_, ?_, ?_⟩
  · intro t ts h
    rw [toolsBlock, h, List.map_cons]
    cases ts with
    | nil => simp [joinSep]
    | cons y t2 =>
      rw [joinSep_cons_ne _ _ _ (by simp), if_neg (by simp), List.append_assoc]
      rfl
  · intro t
    rfl
  · intro t ht
    rw [toolsBlock]
    exact mem_infix_joinSep _ _ _ _ ht
  · intro vi hvi
    rw [context_instructions, hvi]
    refine ⟨("The agent goal and tools are as follows:\n            Description: ").toList
        ++ g.description ++ ("\n            Available Tools:\n            ").toList,
      ("\n            The conversation history to date is:\n            ").toList
        ++ dumps vi.conversation_history, ?_⟩
    simp [List.append_assoc]

/-- C8 (witness): the rendering equations at a concrete two-tool goal. -/
theorem c8_tool_catalog_witness :
    toolsBlock ⟨('g' :: []), [⟨('A' :: []), ('d' :: []), [⟨('x' :: []), ('s' :: [])⟩]⟩,
        ⟨('B' :: []), ('e' :: []), []⟩]⟩
      = toolLine ⟨('A' :: []), ('d' :: []), [⟨('x' :: []), ('s' :: [])⟩]⟩
        ++ (if ([⟨('B' :: []), ('e' :: []), []⟩] : List ToolSpec) = [] then []
            else ('\n' :: []) ++ joinSep (("\n").toList)
              ([(⟨('B' :: []), ('e' :: []), []⟩ : ToolSpec)].map toolLine))
    ∧ toolLine ⟨('B' :: []), ('e' :: []), []⟩
        <:+: toolsBlock ⟨('g' :: []), [⟨('A' :: []), ('d' :: []), [⟨('x' :: []), ('s' :: [])⟩]⟩,
          ⟨('B' :: []), ('e' :: []), []⟩]⟩ :=
  ⟨(c8_tool_catalog _).1 _ _ rfl,
   (c8_tool_catalog _).2.2.1 _ (List.mem_cons_of_mem _ (List.mem_cons_self _ _))⟩
